import Mathlib

/-!
Shallow embedding of the pfunk functional-testing harness
(`pfunk/__init__.py`, `pfunk/tests/geweke_mcmc.py`, `pfunk/tests/mcmc_banana.py`)
and proofs about it.

Python floats are modelled as rationals (ℚ), Python ints as ℤ (ℕ where the
source value is a count), Python dicts holding a test Result as association
lists with first-match lookup and overwrite-on-set.
-/

/-! ### Decimal rendering of integers (model of Python `str` on `int`) -/

/-- Decimal digit character for `n < 10` (model of the digit characters
produced by Python's decimal rendering of integers). -/
def digitChar (n : Nat) : Char :=
  match n with
  | 0 => '0' | 1 => '1' | 2 => '2' | 3 => '3' | 4 => '4'
  | 5 => '5' | 6 => '6' | 7 => '7' | 8 => '8' | 9 => '9'
  | _ => '*'

/-- Decimal digit list of a natural number, most significant digit first
(model of Python `str(n)` for `n ≥ 0`). -/
def natToDigits (n : Nat) : List Char :=
  if _h : n < 10 then [digitChar n]
  else natToDigits (n / 10) ++ [digitChar (n % 10)]
  decreasing_by exact Nat.div_lt_self (by omega) (by omega)

/-- Decimal string of a natural number (Python `str(n)` for `n ≥ 0`). -/
def natStr (n : Nat) : String := ⟨natToDigits n⟩

/-- Decimal string of an integer, with a leading minus sign when negative
(Python `str(i)` on `int`). -/
def intStr (i : Int) : String :=
  if i < 0 then "-" ++ natStr i.natAbs else natStr i.toNat

/-- Value of a digit list read back as a natural number (decoding function,
used to prove `natToDigits` injective). -/
def digitsVal (l : List Char) : Nat :=
  l.foldl (fun a c => 10 * a + (c.toNat - 48)) 0

/-! ### Result records (Python dicts written by a test's `_run`) -/

/-- Field value stored in a Result record: a string, a scalar (Python float
modelled as ℚ), a list of ints or a list of scalars. -/
inductive Value where
  | str (s : String)
  | num (q : ℚ)
  | intList (l : List Int)
  | numList (l : List ℚ)
  deriving DecidableEq

/-- A Result record: an association list from field names to values.
The most recently set binding comes first. -/
abbrev Result := List (String × Value)

/-- Python dict update `r[k] = v`: the new binding shadows (and here
replaces) any previous binding of `k`. -/
def dset (r : Result) (k : String) (v : Value) : Result :=
  (k, v) :: r.filter (fun p => p.1 != k)

/-- Python dict read `r[k]` (as an option): the most recently set value of
field `k`, if any. -/
def dget (r : Result) (k : String) : Option Value :=
  (r.find? (fun p => p.1 == k)).map (·.2)

/-- Errors raised by the harness (spec §7 taxonomy; only the ones the claims
exercise are modelled). -/
inductive PfunkError where
  | invalidName
  | missingField (field : String)
  | emptyHistory
  | typeError
  deriving DecidableEq

/-! ### Naming/Validation (`pfunk/__init__.py` line 57 `NAME_FORMAT`) -/

/-- Word character of the regex class `\w` (ASCII): letter, digit or
underscore. -/
def isWordChar (c : Char) : Bool := c.isAlphanum || c == '_'

/-- Translation of `NAME_FORMAT = re.compile(r'^[a-zA-Z]\w*$')` from
`pfunk/__init__.py` line 57: the string is non-empty, starts with an ASCII
letter, and every later character is a word character. -/
def nameFormatMatches (s : String) : Bool :=
  match s.data with
  | [] => false
  | c :: cs => c.isAlpha && cs.all isWordChar

/-- Modelled from the spec: `validate_name` itself is not among the given
source files (only its pattern `NAME_FORMAT` is, in `pfunk/__init__.py`);
per the spec it returns the name if it matches `NAME_FORMAT` and fails with
`InvalidNameError` otherwise. -/
def validateName (name : String) : Except PfunkError String :=
  if nameFormatMatches name then .ok name else .error .invalidName

/-! ### Date formatting (`pfunk/__init__.py` lines 46–53) -/

/-- The source's `DATE_FORMAT` constant (`pfunk/__init__.py` line 47). -/
def DATE_FORMAT : String := "%Y-%m-%d-%H:%M:%S"

/-- Broken-down time, the fields of a Python `time.struct_time` that
`DATE_FORMAT` uses. -/
structure Tm where
  tmYear : Nat
  tmMon : Nat
  tmMday : Nat
  tmHour : Nat
  tmMin : Nat
  tmSec : Nat
  deriving DecidableEq

/-- Zero-padding to two characters, as C `strftime` does for `%m`, `%d`,
`%H`, `%M` and `%S`. -/
def pad2 (n : Nat) : String :=
  if n < 10 then "0" ++ natStr n else natStr n

/-- Model of `time.strftime(DATE_FORMAT, t)` for the fixed pattern
`'%Y-%m-%d-%H:%M:%S'`: the six date/time fields, zero-padded, joined with
the literal separators of the pattern. -/
def strftimeDate (t : Tm) : String :=
  natStr t.tmYear ++ "-" ++ pad2 t.tmMon ++ "-" ++ pad2 t.tmMday ++ "-" ++
    pad2 t.tmHour ++ ":" ++ pad2 t.tmMin ++ ":" ++ pad2 t.tmSec

/-- The source's `date(when=None)` (`pfunk/__init__.py` lines 49–53):
formats `when` if given (a `struct_time` is always truthy) and the current
time otherwise. The ambient current time is passed explicitly as `now`. -/
def date (now : Tm) (when : Option Tm) : String :=
  match when with
  | some w => strftimeDate w
  | none => strftimeDate now

/-- Checker for the shape `YYYY-MM-DD-HH:MM:SS`: nineteen characters, digits
everywhere except dashes at positions 4, 7, 10 and colons at positions 13
and 16. -/
def isDatePattern (s : String) : Bool :=
  match s.data with
  | [y1, y2, y3, y4, a1, m1, m2, a2, d1, d2, a3, h1, h2, a4, n1, n2, a5, e1, e2] =>
    y1.isDigit && y2.isDigit && y3.isDigit && y4.isDigit && (a1 == '-') &&
    m1.isDigit && m2.isDigit && (a2 == '-') &&
    d1.isDigit && d2.isDigit && (a3 == '-') &&
    h1.isDigit && h2.isDigit && (a4 == ':') &&
    n1.isDigit && n2.isDigit && (a5 == ':') &&
    e1.isDigit && e2.isDigit
  | _ => false

/-! ### DeviationAnalyzer (spec §4.5; called as `pfunk.assert_not_deviated_from`
from `Geweke._analyse` and `MCMCBanana._analyse`) -/

/-- Python `abs` on a scalar. -/
def pyAbs (q : ℚ) : ℚ := if q < 0 then -q else q

/-- Modelled from the spec: `assert_not_deviated_from` (the body of
`pfunk.assert_not_deviated_from` is not among the given source files; only
its call sites in `Geweke._analyse` and `MCMCBanana._analyse` are). Per spec
§4.5 it reads `field` from the most recent terminal Result of `history`,
fails with `MissingFieldError` if the field is absent from that Result, and
otherwise passes iff `abs(value - expected) <= threshold`. -/
def notDeviated (expected threshold : ℚ) (history : List Result)
    (field : String) : Except PfunkError Bool :=
  match history.getLast? with
  | none => .error .emptyHistory
  | some r =>
    match dget r field with
    | none => .error (.missingField field)
    | some (Value.num v) => .ok (decide (pyAbs (v - expected) ≤ threshold))
    | some _ => .error .typeError

/-- Modelled from the spec: the TestRunner surfaces a `MissingFieldError`
raised during analysis as an analysis failure (the test fails) rather than a
crash of the batch (spec §7), so a failed analysis yields `false`. -/
def analyseOutcome (res : Except PfunkError Bool) : Bool :=
  match res with
  | .ok b => b
  | .error _ => false

/-! ### Revision resolution (`pfunk/__init__.py` lines 74–90 `prepare_pints`) -/

/-- The module-level cache `PINTS_COMMIT = PINTS_VERSION = None`
(`pfunk/__init__.py` line 74). -/
structure PState where
  pintsCommit : Option String
  pintsVersion : Option String
  deriving DecidableEq

/-- External effects `prepare_pints` can perform: `git.pints_refresh()`,
`sys.path.insert(0, DIR_PINTS_REPO)` and `import pints`. -/
inductive PEffect where
  | pintsRefresh
  | sysPathInsert
  | importPints
  deriving DecidableEq

/-- `prepare_pints` (`pfunk/__init__.py` lines 76–90) as a state
transformer on the module-level cache. `gitHash` stands for the value
`git.pints_hash()` would return and `pintsVer` for
`pints.version(formatted=True)`; the returned list records the external
effects performed, in order. -/
def preparePints (gitHash pintsVer : String) (s : PState) :
    PState × List PEffect :=
  let (commit, effs1) :=
    match s.pintsCommit with
    | none => (some gitHash, [PEffect.pintsRefresh])
    | some c => (some c, ([] : List PEffect))
  let (ver, effs2) :=
    match s.pintsVersion with
    | none => (some pintsVer, [PEffect.sysPathInsert, PEffect.importPints])
    | some v => (some v, ([] : List PEffect))
  (⟨commit, ver⟩, effs1 ++ effs2)

/-! ### Test names (`geweke_mcmc.py` lines 43–45, `mcmc_banana.py` lines 41–43) -/

/-- Name computed by `Geweke.__init__`:
`'geweke_mcmc' + self._method + '_' + str(self._nchains)`. -/
def gewekeName (method : String) (nchains : Int) : String :=
  "geweke_mcmc" ++ method ++ "_" ++ intStr nchains

/-- Name computed by `MCMCBanana.__init__`:
`'mcmc_banana_' + self._method + '_' + str(self._nchains)`. -/
def bananaName (method : String) (nchains : Int) : String :=
  "mcmc_banana_" ++ method ++ "_" ++ intStr nchains

/-! ### `Geweke._run` (`geweke_mcmc.py` lines 91–172) -/

/-- The Result-writing skeleton of `Geweke._run`. Lines 107–166 of the
source import pints, build the toy model, sample `theta1_samples` and `theta2_samples`
and compute the Geweke statistic `g_samples` (then trace-plot it); all of
that randomly sampled data is abstracted into the `gsamples` argument of
type `γ`, because no line of `_run` writes any of it into `result`. The only
`result` writes are `result['method']` (line 103), `result['p-value'] = 0`
(line 169) and `result['status'] = 'done'` (line 172). -/
def gewekeRun (γ : Type) (method : String) (_gsamples : γ) : Result :=
  let r : Result := []
  let r := dset r "method" (Value.str method)
  let r := dset r "p-value" (Value.num 0)
  let r := dset r "status" (Value.str "done")
  r

/-- `Geweke._analyse` (`geweke_mcmc.py` lines 174–176):
`pfunk.assert_not_deviated_from(0, self._pass_threshold, results, 'kld')`. -/
def gewekeAnalyse (passThreshold : ℚ) (results : List Result) :
    Except PfunkError Bool :=
  notDeviated 0 passThreshold results "kld"

/-! ### `MCMCBanana._run` (`mcmc_banana.py` lines 45–143) -/

/-- Number of elements of Python `range(0, stop, step)` for `step > 0`. -/
def pyRangeLen (stop : Int) (step : Nat) : Nat :=
  if stop ≤ 0 then 0 else (stop.toNat + step - 1) / step

/-- Python `list(range(0, stop, step))` for `step > 0`. -/
def pyRange (stop : Int) (step : Nat) : List Int :=
  (List.range (pyRangeLen stop step)).map (fun (k : Nat) => (k : Int) * step)

/-- Python slice `l[i:i+len]` for a non-negative start index `i`. -/
def pySlice (α : Type) (l : List α) (i : Int) (len : Nat) : List α :=
  (l.drop i.toNat).take len

/-- The sliding-window start indices of `MCMCBanana._run` line 124:
`list(range(0, n_samples - n_window + n_jump, n_jump))` with
`n_window = 500 * nchains` (line 122) and `n_jump = 20 * nchains`
(line 123). -/
def bananaIters (nSamples nchains : Nat) : List Int :=
  pyRange ((nSamples : Int) - 500 * nchains + 20 * nchains) (20 * nchains)

/-- The Result-writing part of `MCMCBanana._run`. The external collaborators
are abstracted: `chain` is the woven chain `pfunk.weave(chains)` of line 118
(the MCMC run itself is external and `weave` is not among the given source
files), `kldFn` is `log_pdf.kl_divergence` and `essFn` is
`pints.effective_sample_size`. Returns `none` when `n_jump` is zero, where
the Python `range` call of line 124 raises `ValueError` and `_run` does not
complete. Writes, in source order: `method` (line 69), `iters` (line 125),
`klds` (lines 126–127), `kld` (line 137, on the chain without the first
`n_burn * nchains` samples, line 132), `ess` (line 140) and
`status = 'done'` (line 143). -/
def bananaRun (α : Type) (method : String) (nchains maxIter : Nat)
    (chain : List α) (kldFn : List α → ℚ) (essFn : List α → Value) :
    Option Result :=
  let r : Result := []
  let r := dset r "method" (Value.str method)
  let nBurn := maxIter / 2
  let nSamples := chain.length
  let nWindow := 500 * nchains
  let nJump := 20 * nchains
  if nJump = 0 then none
  else
    let iters := bananaIters nSamples nchains
    let r := dset r "iters" (Value.intList iters)
    let r := dset r "klds"
      (Value.numList (iters.map (fun i => kldFn (pySlice α chain i nWindow))))
    let chain2 := chain.drop (nBurn * nchains)
    let r := dset r "kld" (Value.num (kldFn chain2))
    let r := dset r "ess" (essFn chain2)
    let r := dset r "status" (Value.str "done")
    some r

/-- `MCMCBanana._analyse` (`mcmc_banana.py` lines 145–147):
`pfunk.assert_not_deviated_from(0, self._pass_threshold, results, 'kld')`. -/
def bananaAnalyse (passThreshold : ℚ) (results : List Result) :
    Except PfunkError Bool :=
  notDeviated 0 passThreshold results "kld"

/-! ### Lemmas about decimal rendering -/

theorem digitChar_toNat (n : Nat) (h : n < 10) : (digitChar n).toNat = 48 + n := by
  interval_cases n <;> rfl

theorem digitChar_isDigit (n : Nat) (h : n < 10) : (digitChar n).isDigit = true := by
  interval_cases n <;> rfl

theorem digitsVal_append (l : List Char) (c : Char) :
    digitsVal (l ++ [c]) = 10 * digitsVal l + (c.toNat - 48) := by
  simp [digitsVal, List.foldl_append]

theorem digitsVal_natToDigits (n : Nat) : digitsVal (natToDigits n) = n := by
  induction n using Nat.strong_induction_on with
  | _ n ih =>
    rw [natToDigits]
    split
    · next h =>
      simp [digitsVal, digitChar_toNat n h]
    · next h =>
      rw [digitsVal_append, ih (n / 10) (Nat.div_lt_self (by omega) (by omega)),
        digitChar_toNat _ (Nat.mod_lt _ (by omega))]
      omega

theorem natToDigits_inj (a b : Nat) (h : natToDigits a = natToDigits b) : a = b := by
  have ha := digitsVal_natToDigits a
  rw [h, digitsVal_natToDigits] at ha
  omega

theorem natToDigits_ne_nil (n : Nat) : natToDigits n ≠ [] := by
  rw [natToDigits]
  split <;> simp

theorem mem_natToDigits_isDigit (n : Nat) : ∀ c ∈ natToDigits n, c.isDigit = true := by
  induction n using Nat.strong_induction_on with
  | _ n ih =>
    rw [natToDigits]
    split
    · next h =>
      intro c hc
      simp only [List.mem_singleton] at hc
      subst hc
      exact digitChar_isDigit n h
    · next h =>
      intro c hc
      rw [List.mem_append] at hc
      rcases hc with hc | hc
      · exact ih (n / 10) (Nat.div_lt_self (by omega) (by omega)) c hc
      · simp only [List.mem_singleton] at hc
        subst hc
        exact digitChar_isDigit _ (Nat.mod_lt _ (by omega))

theorem natToDigits_of_lt10 (n : Nat) (h : n < 10) : natToDigits n = [digitChar n] := by
  rw [natToDigits]
  simp [h]

theorem natToDigits_len2 (n : Nat) (h1 : 10 ≤ n) (h2 : n < 100) :
    (natToDigits n).length = 2 := by
  rw [natToDigits, dif_neg (by omega), natToDigits_of_lt10 (n / 10) (by omega)]
  rfl

theorem natToDigits_len3 (n : Nat) (h1 : 100 ≤ n) (h2 : n < 1000) :
    (natToDigits n).length = 3 := by
  rw [natToDigits, dif_neg (by omega), List.length_append,
    natToDigits_len2 (n / 10) (by omega) (by omega)]
  rfl

theorem natToDigits_len4 (n : Nat) (h1 : 1000 ≤ n) (h2 : n < 10000) :
    (natToDigits n).length = 4 := by
  rw [natToDigits, dif_neg (by omega), List.length_append,
    natToDigits_len3 (n / 10) (by omega) (by omega)]
  rfl

theorem string_data_inj {s t : String} (h : s.data = t.data) : s = t := by
  cases s
  cases t
  exact congrArg String.mk h

theorem underscore_not_mem_natToDigits (n : Nat) : '_' ∉ natToDigits n := by
  intro h
  exact absurd (mem_natToDigits_isDigit n _ h) (by decide)

theorem underscore_not_mem_intStr (i : Int) : '_' ∉ (intStr i).data := by
  unfold intStr
  split
  · rw [String.data_append]
    intro h
    rcases List.mem_append.mp h with h | h
    · exact absurd h (by decide)
    · exact underscore_not_mem_natToDigits _ h
  · exact underscore_not_mem_natToDigits _

theorem intStr_inj (i j : Int) (h : intStr i = intStr j) : i = j := by
  have hd := congrArg String.data h
  unfold intStr at hd
  split at hd <;> split at hd
  · next hi hj =>
    rw [String.data_append, String.data_append] at hd
    have := natToDigits_inj _ _ (List.append_cancel_left hd)
    omega
  · next hi hj =>
    exfalso
    rw [String.data_append] at hd
    have : '-' ∈ (natStr j.toNat).data := by
      rw [← hd]
      simp
    exact absurd (mem_natToDigits_isDigit _ _ this) (by decide)
  · next hi hj =>
    exfalso
    rw [String.data_append] at hd
    have : '-' ∈ (natStr i.toNat).data := by
      rw [hd]
      simp
    exact absurd (mem_natToDigits_isDigit _ _ this) (by decide)
  · next hi hj =>
    have := natToDigits_inj _ _ hd
    omega

/-! ### Separator-splitting of character lists -/

theorem append_sep_inj_left (sep : Char) (p1 : List Char) :
    ∀ (p2 r1 r2 : List Char), sep ∉ p1 → sep ∉ p2 →
      p1 ++ sep :: r1 = p2 ++ sep :: r2 → p1 = p2 ∧ r1 = r2 := by
  induction p1 with
  | nil =>
    intro p2 r1 r2 _ hp2 h
    cases p2 with
    | nil =>
      simp only [List.nil_append] at h
      exact ⟨rfl, (List.cons.injEq _ _ _ _ ▸ h).2⟩
    | cons c p2 =>
      exfalso
      simp only [List.nil_append, List.cons_append, List.cons.injEq] at h
      exact hp2 (h.1 ▸ List.mem_cons_self c p2)
  | cons a p1 ih =>
    intro p2 r1 r2 hp1 hp2 h
    cases p2 with
    | nil =>
      exfalso
      simp only [List.nil_append, List.cons_append, List.cons.injEq] at h
      exact hp1 (h.1 ▸ List.mem_cons_self a p1)
    | cons b p2 =>
      simp only [List.cons_append, List.cons.injEq] at h
      obtain ⟨rfl, h⟩ := h
      have := ih p2 r1 r2 (fun hm => hp1 (List.mem_cons_of_mem _ hm))
        (fun hm => hp2 (List.mem_cons_of_mem _ hm)) h
      exact ⟨by rw [this.1], this.2⟩

theorem append_sep_inj (sep : Char) (a1 a2 b1 b2 : List Char)
    (h1 : sep ∉ b1) (h2 : sep ∉ b2)
    (h : a1 ++ sep :: b1 = a2 ++ sep :: b2) : a1 = a2 ∧ b1 = b2 := by
  have hr := congrArg List.reverse h
  simp only [List.reverse_append, List.reverse_cons, List.append_assoc,
    List.singleton_append] at hr
  have := append_sep_inj_left sep b1.reverse b2.reverse a1.reverse a2.reverse
    (by simpa using h1) (by simpa using h2) hr
  exact ⟨by
    have h3 := this.2
    rwa [List.reverse_inj] at h3, by
    have h4 := this.1
    rwa [List.reverse_inj] at h4⟩

theorem nameSep_inj (pre m1 m2 : String) (n1 n2 : Int)
    (h : pre ++ m1 ++ "_" ++ intStr n1 = pre ++ m2 ++ "_" ++ intStr n2) :
    m1 = m2 ∧ n1 = n2 := by
  have hd := congrArg String.data h
  simp only [String.data_append] at hd
  simp only [List.append_assoc, List.singleton_append] at hd
  have hc := List.append_cancel_left hd
  have := append_sep_inj '_' m1.data m2.data (intStr n1).data (intStr n2).data
    (underscore_not_mem_intStr n1) (underscore_not_mem_intStr n2) hc
  exact ⟨string_data_inj this.1, intStr_inj _ _ (string_data_inj this.2)⟩

/-! ### Lemmas about `pyRange` (Python `range(0, stop, step)` for `step > 0`) -/

theorem pyRangeLen_iff (stop : Int) (step : Nat) (hstep : 1 ≤ step) (k : Nat) :
    k < pyRangeLen stop step ↔ (k : Int) * step < stop := by
  unfold pyRangeLen
  split
  · next h =>
    constructor
    · omega
    · intro hk
      exfalso
      have h0 : (0 : Int) ≤ (k : Int) * step := by positivity
      omega
  · next h =>
    have hS : (stop.toNat : Int) = stop := Int.toNat_of_nonneg (by omega)
    constructor
    · intro hk
      have h2 : (k + 1) * step ≤ stop.toNat + step - 1 :=
        (Nat.le_div_iff_mul_le (by omega)).mp hk
      rw [Nat.add_mul, Nat.one_mul] at h2
      have h3 : k * step < stop.toNat := by omega
      have h4 : ((k * step : Nat) : Int) < ((stop.toNat : Nat) : Int) :=
        Int.ofNat_lt.mpr h3
      push_cast at h4
      omega
    · intro hk
      have h3 : k * step < stop.toNat := by
        have h4 : ((k * step : Nat) : Int) < stop := by push_cast; exact hk
        omega
      have h5 : (k + 1) * step ≤ stop.toNat + step - 1 := by
        rw [Nat.add_mul, Nat.one_mul]
        omega
      exact (Nat.le_div_iff_mul_le (by omega)).mpr h5

theorem pyRange_length (stop : Int) (step : Nat) :
    (pyRange stop step).length = pyRangeLen stop step := by
  simp only [pyRange, List.length_map, List.length_range]

theorem pyRange_get (stop : Int) (step : Nat) (j : Nat)
    (hj : j < (pyRange stop step).length) :
    (pyRange stop step).get ⟨j, hj⟩ = (j : Int) * step := by
  simp only [pyRange, List.get_eq_getElem, List.getElem_map, List.getElem_range]

theorem pyRange_pairwise (stop : Int) (step : Nat) (h : 1 ≤ step) :
    (pyRange stop step).Pairwise (· < ·) := by
  unfold pyRange
  rw [List.pairwise_map]
  refine List.Pairwise.imp ?_ (List.pairwise_lt_range _)
  intro a b hab
  have hs : (0 : Int) < step := by exact_mod_cast h
  exact mul_lt_mul_of_pos_right (by exact_mod_cast hab) hs

theorem pyRange_mem_iff (stop : Int) (step : Nat) (h : 1 ≤ step) (k : Nat) :
    ((k : Int) * step ∈ pyRange stop step) ↔ (k : Int) * step < stop := by
  unfold pyRange
  rw [List.mem_map]
  constructor
  · rintro ⟨k2, hk2, he⟩
    rw [List.mem_range] at hk2
    have hs : (step : Int) ≠ 0 := by
      have h0 : (0 : Int) < step := by exact_mod_cast h
      omega
    have hk : k2 = k := by
      have h6 := mul_right_cancel₀ hs he
      exact_mod_cast h6
    subst hk
    exact (pyRangeLen_iff stop step h k2).mp hk2
  · intro hlt
    exact ⟨k, List.mem_range.mpr ((pyRangeLen_iff stop step h k).mpr hlt), rfl⟩

/-! ### Lemmas about date formatting -/

theorem list_len2_eq (l : List Char) (h : l.length = 2) : ∃ a b, l = [a, b] := by
  rcases l with _ | ⟨a, _ | ⟨b, _ | ⟨c, l⟩⟩⟩
  · simp at h
  · simp at h
  · exact ⟨a, b, rfl⟩
  · simp only [List.length_cons] at h
    omega

theorem list_len4_eq (l : List Char) (h : l.length = 4) :
    ∃ a b c d, l = [a, b, c, d] := by
  rcases l with _ | ⟨a, _ | ⟨b, _ | ⟨c, _ | ⟨d, _ | ⟨e, l⟩⟩⟩⟩⟩
  · simp at h
  · simp at h
  · simp at h
  · simp at h
  · exact ⟨a, b, c, d, rfl⟩
  · simp only [List.length_cons] at h
    omega

theorem pad2_len (n : Nat) (h : n < 100) : (pad2 n).data.length = 2 := by
  unfold pad2
  split
  · next h10 =>
    rw [String.data_append]
    simp [natStr, natToDigits_of_lt10 n h10]
  · next h10 =>
    simp [natStr, natToDigits_len2 n (by omega) h]

theorem pad2_digits (n : Nat) (_h : n < 100) :
    ∀ c ∈ (pad2 n).data, c.isDigit = true := by
  unfold pad2
  split
  · next h10 =>
    intro c hc
    rw [String.data_append] at hc
    rcases List.mem_append.mp hc with hc | hc
    · simp only [show ("0" : String).data = ['0'] from rfl, List.mem_singleton] at hc
      subst hc
      rfl
    · exact mem_natToDigits_isDigit n c hc
  · intro c hc
    exact mem_natToDigits_isDigit n c hc

theorem strftimeDate_pattern (t : Tm) (hy1 : 1000 ≤ t.tmYear) (hy2 : t.tmYear < 10000)
    (hmo : t.tmMon < 100) (hd : t.tmMday < 100) (hh : t.tmHour < 100)
    (hmi : t.tmMin < 100) (hs : t.tmSec < 100) :
    isDatePattern (strftimeDate t) = true := by
  obtain ⟨y1, y2, y3, y4, hY⟩ :=
    list_len4_eq (natToDigits t.tmYear) (natToDigits_len4 _ hy1 hy2)
  obtain ⟨m1, m2, hM⟩ := list_len2_eq (pad2 t.tmMon).data (pad2_len _ hmo)
  obtain ⟨d1, d2, hD⟩ := list_len2_eq (pad2 t.tmMday).data (pad2_len _ hd)
  obtain ⟨h1, h2, hH⟩ := list_len2_eq (pad2 t.tmHour).data (pad2_len _ hh)
  obtain ⟨n1, n2, hN⟩ := list_len2_eq (pad2 t.tmMin).data (pad2_len _ hmi)
  obtain ⟨s1, s2, hS⟩ := list_len2_eq (pad2 t.tmSec).data (pad2_len _ hs)
  have hYd := mem_natToDigits_isDigit t.tmYear
  rw [hY] at hYd
  have hMd := pad2_digits t.tmMon hmo
  rw [hM] at hMd
  have hDd := pad2_digits t.tmMday hd
  rw [hD] at hDd
  have hHd := pad2_digits t.tmHour hh
  rw [hH] at hHd
  have hNd := pad2_digits t.tmMin hmi
  rw [hN] at hNd
  have hSd := pad2_digits t.tmSec hs
  rw [hS] at hSd
  have hdata : (strftimeDate t).data =
      [y1, y2, y3, y4, '-', m1, m2, '-', d1, d2, '-', h1, h2, ':', n1, n2, ':', s1, s2] := by
    unfold strftimeDate
    simp only [String.data_append]
    rw [show (natStr t.tmYear).data = natToDigits t.tmYear from rfl, hY, hM, hD, hH, hN, hS]
    rfl
  unfold isDatePattern
  rw [hdata]
  simp [hYd y1 (by simp), hYd y2 (by simp), hYd y3 (by simp), hYd y4 (by simp),
    hMd m1 (by simp), hMd m2 (by simp), hDd d1 (by simp), hDd d2 (by simp),
    hHd h1 (by simp), hHd h2 (by simp), hNd n1 (by simp), hNd n2 (by simp),
    hSd s1 (by simp), hSd s2 (by simp)]

/-! ### Claim theorems -/

/-- C1: the claim says every concrete TestCase populates, during run, the
fields its own analyze depends on — in particular that a completed
`Geweke._run` leaves a Result containing the field `'kld'` that
`Geweke._analyse` reads. The code does not: `Geweke._run` never writes
`'kld'`, so the Result it produces lacks the field and `Geweke._analyse` on
that Result fails with `MissingFieldError`. -/
theorem geweke_run_never_writes_kld :
    dget (gewekeRun Unit "AdaptiveCovarianceMCMC" ()) "kld" = none ∧
    gewekeAnalyse 1 [gewekeRun Unit "AdaptiveCovarianceMCMC" ()] =
      .error (PfunkError.missingField "kld") :=
  ⟨rfl, rfl⟩

/-- C2: for every non-empty history whose latest Result contains the named
field with numeric value `v`, `not_deviated expected threshold history
field` returns true if and only if `abs(v - expected) ≤ threshold`. -/
theorem notDeviated_ok_iff_within_threshold (expected threshold : ℚ)
    (history : List Result) (field : String) (r : Result) (v : ℚ)
    (hlast : history.getLast? = some r)
    (hv : dget r field = some (Value.num v)) :
    notDeviated expected threshold history field = .ok true ↔
      |v - expected| ≤ threshold := by
  unfold notDeviated
  simp only [hlast]
  simp only [hv]
  have habs : pyAbs (v - expected) = |v - expected| := by
    unfold pyAbs
    split
    · next hneg => rw [abs_of_neg hneg]
    · next hpos => rw [abs_of_nonneg (not_lt.mp hpos)]
  simp [habs]

/-- Witness for C2: with expected 0 and threshold 1/10, a history whose
latest Result has `kld = 1/20` passes. -/
theorem notDeviated_ok_iff_within_threshold_witness :
    notDeviated 0 (1/10) [[("kld", Value.num (1/20))]] "kld" = .ok true :=
  (notDeviated_ok_iff_within_threshold 0 (1/10) [[("kld", Value.num (1/20))]]
    "kld" [("kld", Value.num (1/20))] (1/20) rfl rfl).mpr
    (by rw [sub_zero, abs_of_nonneg (by norm_num : (0:ℚ) ≤ 1/20)]; norm_num)

/-- C3: for every history whose latest Result does not contain the named
field, `not_deviated` fails with `MissingFieldError`, and this is surfaced
as an analysis failure (the test fails, outcome `false`) rather than a crash
of the batch. -/
theorem notDeviated_missing_field_fails (expected threshold : ℚ)
    (history : List Result) (field : String) (r : Result)
    (hlast : history.getLast? = some r) (hnone : dget r field = none) :
    notDeviated expected threshold history field =
      .error (PfunkError.missingField field) ∧
    analyseOutcome (notDeviated expected threshold history field) = false := by
  unfold notDeviated
  simp only [hlast]
  simp only [hnone]
  exact ⟨trivial, rfl⟩

/-- Witness for C3: a history whose latest Result has no `kld` field makes
the analysis fail with `MissingFieldError` and the test outcome false. -/
theorem notDeviated_missing_field_fails_witness :
    notDeviated 0 (1/10) [[("status", Value.str "done")]] "kld" =
      .error (PfunkError.missingField "kld") ∧
    analyseOutcome (notDeviated 0 (1/10) [[("status", Value.str "done")]] "kld") =
      false :=
  notDeviated_missing_field_fails 0 (1/10) [[("status", Value.str "done")]]
    "kld" [("status", Value.str "done")] rfl rfl

/-- C4: `validate_name` accepts a name (returning it) if and only if the
name matches the `NAME_FORMAT` pattern `^[A-Za-z]\w*$`, and fails with
`InvalidNameError` otherwise; in particular it accepts `"geweke_mcmc1"` and
rejects `"1geweke"` and `"geweke-mcmc"`. -/
theorem validateName_matches_NAME_FORMAT :
    (∀ name : String, validateName name = .ok name ↔
      nameFormatMatches name = true) ∧
    validateName "geweke_mcmc1" = .ok "geweke_mcmc1" ∧
    validateName "1geweke" = .error PfunkError.invalidName ∧
    validateName "geweke-mcmc" = .error PfunkError.invalidName := by
  refine ⟨?_, rfl, rfl, rfl⟩
  intro name
  unfold validateName
  by_cases h : nameFormatMatches name <;> simp [h]

/-- C5: equality of computed test names implies equality of the constructor
parameters baked into them: for `Geweke` names
`'geweke_mcmc' + method + '_' + str(nchains)` and for `MCMCBanana` names
`'mcmc_banana_' + method + '_' + str(nchains)`, equal names force equal
`method` and `nchains`. -/
theorem test_names_determine_parameters :
    (∀ (m1 m2 : String) (n1 n2 : Int),
      gewekeName m1 n1 = gewekeName m2 n2 → m1 = m2 ∧ n1 = n2) ∧
    (∀ (m1 m2 : String) (n1 n2 : Int),
      bananaName m1 n1 = bananaName m2 n2 → m1 = m2 ∧ n1 = n2) :=
  ⟨fun m1 m2 n1 n2 h => nameSep_inj "geweke_mcmc" m1 m2 n1 n2 h,
   fun m1 m2 n1 n2 h => nameSep_inj "mcmc_banana_" m1 m2 n1 n2 h⟩

/-- Witness for C5: applying the injectivity at concrete names. -/
theorem test_names_determine_parameters_witness :
    (("ACMC" : String) = "ACMC" ∧ (2 : Int) = 2) ∧
    (("HMC" : String) = "HMC" ∧ (4 : Int) = 4) :=
  ⟨test_names_determine_parameters.1 "ACMC" "ACMC" 2 2 rfl,
   test_names_determine_parameters.2 "HMC" "HMC" 4 4 rfl⟩

/-- C6: every concrete run that completes without raising ends with
`result['status'] = 'done'`: both `Geweke._run` and (whenever it returns a
Result) `MCMCBanana._run` leave the status field set to `'done'`. -/
theorem run_ends_with_status_done :
    (∀ (γ : Type) (method : String) (g : γ),
      dget (gewekeRun γ method g) "status" = some (Value.str "done")) ∧
    (∀ (α : Type) (method : String) (nchains maxIter : Nat) (chain : List α)
      (kldFn : List α → ℚ) (essFn : List α → Value) (r : Result),
      bananaRun α method nchains maxIter chain kldFn essFn = some r →
      dget r "status" = some (Value.str "done")) := by
  constructor
  · intro γ method g
    rfl
  · intro α method nchains maxIter chain kldFn essFn r hr
    simp only [bananaRun] at hr
    split at hr
    · exact absurd hr (by simp)
    · rw [Option.some.injEq] at hr
      subst hr
      rfl

/-- Witness for C6: a concrete Geweke run and a concrete MCMCBanana run (on
an empty chain with constant metric functions) both end with status
`'done'`. -/
theorem run_ends_with_status_done_witness :
    dget (gewekeRun Unit "m" ()) "status" = some (Value.str "done") ∧
    dget [("status", Value.str "done"), ("ess", Value.num 0),
          ("kld", Value.num 0), ("klds", Value.numList []),
          ("iters", Value.intList []), ("method", Value.str "m")] "status" =
      some (Value.str "done") :=
  ⟨run_ends_with_status_done.1 Unit "m" (),
   run_ends_with_status_done.2 Unit "m" 1 4 [] (fun _ => 0) (fun _ => Value.num 0)
     [("status", Value.str "done"), ("ess", Value.num 0),
      ("kld", Value.num 0), ("klds", Value.numList []),
      ("iters", Value.intList []), ("method", Value.str "m")] rfl⟩

/-- C7: revision resolution is init-once and idempotent: one successful call
to `prepare_pints` from the initial state sets `PINTS_COMMIT` and
`PINTS_VERSION`, and every call made while both are set leaves the state
unchanged and performs no external effect (no refresh, no resolution). -/
theorem preparePints_init_once_idempotent :
    (∀ g v : String, preparePints g v ⟨none, none⟩ =
      (⟨some g, some v⟩,
       [PEffect.pintsRefresh, PEffect.sysPathInsert, PEffect.importPints])) ∧
    (∀ (g2 v2 : String) (s : PState),
      s.pintsCommit.isSome = true → s.pintsVersion.isSome = true →
      preparePints g2 v2 s = (s, [])) := by
  constructor
  · intro g v
    rfl
  · intro g2 v2 s h1 h2
    cases s with
    | mk pc pv =>
      obtain ⟨c, hc⟩ := Option.isSome_iff_exists.mp h1
      obtain ⟨ver, hv⟩ := Option.isSome_iff_exists.mp h2
      simp only at hc hv
      subst hc
      subst hv
      rfl

/-- Witness for C7: a second call on a state where both cache variables are
set is a no-op with no effects. -/
theorem preparePints_init_once_idempotent_witness :
    preparePints "h2" "v2" ⟨some "h1", some "v1"⟩ =
      (⟨some "h1", some "v1"⟩, []) :=
  preparePints_init_once_idempotent.2 "h2" "v2" ⟨some "h1", some "v1"⟩ rfl rfl

/-- C8: for every time value `when` (and for the current time when no
argument is given), `date` returns a string formatted as
`YYYY-MM-DD-HH:MM:SS` (the strftime pattern `'%Y-%m-%d-%H:%M:%S'`), for
field values in the ranges a calendar `struct_time` carries (four-digit
year, two-digit month, day, hour, minute, second). -/
theorem date_matches_format (now : Tm) (when : Option Tm)
    (hy1 : 1000 ≤ (when.getD now).tmYear) (hy2 : (when.getD now).tmYear < 10000)
    (hmo : (when.getD now).tmMon < 100) (hd : (when.getD now).tmMday < 100)
    (hh : (when.getD now).tmHour < 100) (hmi : (when.getD now).tmMin < 100)
    (hs : (when.getD now).tmSec < 100) :
    isDatePattern (date now when) = true := by
  cases when with
  | none => exact strftimeDate_pattern now hy1 hy2 hmo hd hh hmi hs
  | some w => exact strftimeDate_pattern w hy1 hy2 hmo hd hh hmi hs

/-- Witness for C8: the current time 2026-10-12 03:04:05 formats to the
required pattern. -/
theorem date_matches_format_witness :
    isDatePattern (date ⟨2026, 10, 12, 3, 4, 5⟩ none) = true :=
  date_matches_format ⟨2026, 10, 12, 3, 4, 5⟩ none (by decide) (by decide)
    (by decide) (by decide) (by decide) (by decide) (by decide)

/-- C9: for every completed `MCMCBanana._run`, `result['iters']` and
`result['klds']` are lists of equal length, and `result['iters']` is the
strictly increasing arithmetic sequence starting at 0 with step
`20 * nchains` whose elements are exactly the multiples of the step below
`n_samples - 500 * nchains + 20 * nchains`, where `n_samples` is the length
of the woven chain. -/
theorem banana_run_iters_klds_spec (α : Type) (method : String)
    (nchains maxIter : Nat) (chain : List α) (kldFn : List α → ℚ)
    (essFn : List α → Value) (r : Result)
    (hr : bananaRun α method nchains maxIter chain kldFn essFn = some r) :
    dget r "iters" = some (Value.intList (bananaIters chain.length nchains)) ∧
    dget r "klds" = some (Value.numList ((bananaIters chain.length nchains).map
      (fun i => kldFn (pySlice α chain i (500 * nchains))))) ∧
    ((bananaIters chain.length nchains).map
      (fun i => kldFn (pySlice α chain i (500 * nchains)))).length =
      (bananaIters chain.length nchains).length ∧
    (∀ (j : Nat) (hj : j < (bananaIters chain.length nchains).length),
      (bananaIters chain.length nchains).get ⟨j, hj⟩ =
        (j : Int) * ((20 * nchains : Nat) : Int)) ∧
    (bananaIters chain.length nchains).Pairwise (· < ·) ∧
    (∀ k : Nat,
      ((k : Int) * ((20 * nchains : Nat) : Int) ∈
          bananaIters chain.length nchains) ↔
        (k : Int) * ((20 * nchains : Nat) : Int) <
          (chain.length : Int) - 500 * nchains + 20 * nchains) := by
  simp only [bananaRun] at hr
  split at hr
  · exact absurd hr (by simp)
  · next hnz =>
    rw [Option.some.injEq] at hr
    subst hr
    have hstep : 1 ≤ 20 * nchains := by omega
    refine ⟨rfl, rfl, by simp, ?_, ?_, ?_⟩
    · intro j hj
      exact pyRange_get ((chain.length : Int) - 500 * nchains + 20 * nchains)
        (20 * nchains) j hj
    · exact pyRange_pairwise ((chain.length : Int) - 500 * nchains + 20 * nchains)
        (20 * nchains) hstep
    · intro k
      exact pyRange_mem_iff ((chain.length : Int) - 500 * nchains + 20 * nchains)
        (20 * nchains) hstep k

set_option maxRecDepth 8000 in
/-- Witness for C9: a banana run over a 600-sample woven chain with one
chain produces iters `[0, 20, 40, 60, 80, 100]`, strictly increasing, with
exactly the multiples of 20 below 120 present. -/
theorem banana_run_iters_klds_spec_witness :
    dget [("status", Value.str "done"), ("ess", Value.num 0),
          ("kld", Value.num 0), ("klds", Value.numList [0, 0, 0, 0, 0, 0]),
          ("iters", Value.intList [0, 20, 40, 60, 80, 100]),
          ("method", Value.str "m")] "iters" =
      some (Value.intList (bananaIters 600 1)) ∧
    (bananaIters 600 1).Pairwise (· < ·) ∧
    (((3 : Nat) : Int) * ((20 * 1 : Nat) : Int) ∈ bananaIters 600 1 ↔
      ((3 : Nat) : Int) * ((20 * 1 : Nat) : Int) <
        ((600 : Nat) : Int) - 500 * 1 + 20 * 1) := by
  have h := banana_run_iters_klds_spec Unit "m" 1 4 (List.replicate 600 ())
    (fun _ => 0) (fun _ => Value.num 0)
    [("status", Value.str "done"), ("ess", Value.num 0),
     ("kld", Value.num 0), ("klds", Value.numList [0, 0, 0, 0, 0, 0]),
     ("iters", Value.intList [0, 20, 40, 60, 80, 100]),
     ("method", Value.str "m")] rfl
  exact ⟨h.1, h.2.2.2.2.1, h.2.2.2.2.2 3⟩

/-- C10: the stored Result fields a completed `Geweke._run` writes are
exactly `'method'`, `'p-value'` and `'status'`; `result['p-value']` is the
constant 0; and the computed Geweke statistic (the sampled data abstracted
as `g`) never influences any stored Result field. -/
theorem geweke_run_fields_exact :
    ∀ (γ : Type) (method : String) (g : γ),
      (gewekeRun γ method g).map Prod.fst = ["status", "p-value", "method"] ∧
      dget (gewekeRun γ method g) "p-value" = some (Value.num 0) ∧
      ∀ (δ : Type) (g2 : δ), gewekeRun γ method g = gewekeRun δ method g2 :=
  fun _ _ _ => ⟨rfl, rfl, fun _ _ => rfl⟩
